import Mathlib

/-!
Shallow embedding of `src/xrfit/params.py`.

A fit result (`lmfit.model.ModelResult`) is, for the purposes of this layer,
an ordered mapping from parameter names to parameter records
`{value, min, max, vary}`.  We model it as an association list in insertion
order with unique keys (lmfit's `Parameters` is an ordered dict).  Bounds may
be infinite, values are finite reals; real arithmetic is modelled by `ℚ`.

The xarray accessor methods broadcast the cell-level helpers `_get`,
`_assign` and `_set_bounds` over every cell of the Result Array via
`xr.apply_ufunc` (an external collaborator: a pure "map over cells"
primitive), so the claims are settled at the cell level.
-/

namespace Xrfit

/-- An extended rational: a float bound that may be `-inf` or `+inf`. -/
inductive XRat where
  | negInf
  | fin (q : ℚ)
  | posInf
deriving DecidableEq

/-- Ordering on extended rationals, as Python float comparison. -/
def XRat.le : XRat → XRat → Bool
  | .negInf, _ => true
  | _, .posInf => true
  | .fin a, .fin b => decide (a ≤ b)
  | .posInf, .negInf => false
  | .posInf, .fin _ => false
  | .fin _, .negInf => false

/-- The finite part of an extended rational (total, defaulting to 0;
only applied to finite inputs in this development). -/
def XRat.toRat : XRat → ℚ
  | .fin q => q
  | .negInf => 0
  | .posInf => 0

/-- One lmfit `Parameter`: current value, bounds and the vary flag. -/
structure Param where
  value : ℚ
  min : XRat
  max : XRat
  vary : Bool
deriving DecidableEq

/-- A fit-result object: ordered name → Parameter mapping (insertion order). -/
abbrev ModelResult := List (String × Param)

/-- Python `key.endswith(sfx)` on parameter names. -/
def endsW (key sfx : String) : Bool :=
  key.data.drop (key.data.length - sfx.data.length) == sfx.data

/-- The parameter attribute names `_get` may read (`getattr`);
`vary` is a bool, read into a numeric array as 1/0. -/
inductive PAttr where
  | value
  | min
  | max
  | vary
deriving DecidableEq

/-- Python `getattr(params[key], params_attr)`. -/
def attrOf (p : Param) : PAttr → XRat
  | .value => .fin p.value
  | .min => p.min
  | .max => p.max
  | .vary => .fin (if p.vary then 1 else 0)

/-- Source `_get(data, params_name, params_attr)`: the requested attribute of every
parameter whose name ends with `params_name`, in stored order. -/
def _get (d : ModelResult) (params_name : String) (params_attr : PAttr) : List XRat :=
  (d.filter (fun e => endsW e.1 params_name)).map (fun e => attrOf e.2 params_attr)

/-- The matched parameter records, in stored order. -/
def matchedParams (d : ModelResult) (s : String) : List Param :=
  (d.filter (fun e => endsW e.1 s)).map Prod.snd

/-- The matched parameters' values, in stored order. -/
def matchedValues (d : ModelResult) (s : String) : List ℚ :=
  (matchedParams d s).map Param.value

/-- Loop of `_assign`: `for i, par in enumerate(pars): params[par].set(value=new[i],
min=-inf, max=inf)`.  `i` counts the matches seen so far. -/
def assignAux (new : List XRat) (s : String) : ModelResult → Nat → ModelResult
  | [], _ => []
  | (n, p) :: rest, i =>
    if endsW n s then
      (n, { p with value := (new.getD i (.fin 0)).toRat,
                   min := XRat.negInf, max := XRat.posInf })
        :: assignAux new s rest (i + 1)
    else
      (n, p) :: assignAux new s rest i

/-- Source `_assign(data, params_value_new, params_name)`: write `new[i]` into the
value of the i-th matching parameter and reset its bounds to `(-inf, inf)`. -/
def _assign (d : ModelResult) (params_value_new : List XRat) (params_name : String) :
    ModelResult :=
  assignAux params_value_new params_name d 0

/-- Value `param_min` as computed in `_set_bounds` (after the near-zero override). -/
def boundMin (bound_ratio bound_tol v : ℚ) : ℚ :=
  if |v| ≤ bound_tol then -bound_tol else v - bound_ratio * |v|

/-- Value `param_max` as computed in `_set_bounds` (after the near-zero override). -/
def boundMax (bound_ratio bound_tol v : ℚ) : ℚ :=
  if |v| ≤ bound_tol then bound_tol else v + bound_ratio * |v|

/-- Body of the `_set_bounds` loop for one parameter: if it varies, set
`min` when the current min does not exceed the value, and `max` when the
current max is not below the value. -/
def setBoundsParam (bound_ratio bound_tol : ℚ) (p : Param) : Param :=
  if p.vary then
    let pmin := boundMin bound_ratio bound_tol p.value
    let pmax := boundMax bound_ratio bound_tol p.value
    let p1 := if XRat.le p.min (.fin p.value) then { p with min := XRat.fin pmin } else p
    if XRat.le (.fin p1.value) p1.max then { p1 with max := XRat.fin pmax } else p1
  else p

/-- Source `_set_bounds(modelresult, bound_ratio, bound_tol)`: each parameter is
updated independently by name (keys are unique), i.e. a positional map. -/
def _set_bounds (bound_ratio bound_tol : ℚ) (d : ModelResult) : ModelResult :=
  d.map (fun e => (e.1, setBoundsParam bound_ratio bound_tol e.2))

/-- List `smoothing_sigma = [sigma if i < param.ndim - 1 else 0 for i in range(param.ndim)]`
in `smoothen`. -/
def smoothingSigma (ndim : Nat) (sigma : Int) : List Int :=
  (List.range ndim).map (fun i => if i < ndim - 1 then sigma else 0)

/-- Total order used to model `argsort` ties concretely: by value, ties by
original position (numpy's default kind does not promise this tie order;
every property proved below except stability holds for any sorting
permutation). -/
def pairLe (a b : Nat × ℚ) : Prop :=
  a.2 < b.2 ∨ (a.2 = b.2 ∧ a.1 ≤ b.1)

instance : DecidableRel pairLe := fun a b => by
  unfold pairLe; infer_instance

instance : IsTotal (Nat × ℚ) pairLe :=
  ⟨fun a b => by
    rcases lt_trichotomy a.2 b.2 with h | h | h
    · exact Or.inl (Or.inl h)
    · rcases Nat.le_total a.1 b.1 with h1 | h1
      · exact Or.inl (Or.inr ⟨h, h1⟩)
      · exact Or.inr (Or.inr ⟨h.symm, h1⟩)
    · exact Or.inr (Or.inl h)⟩

instance : IsTrans (Nat × ℚ) pairLe :=
  ⟨fun a b c hab hbc => by
    rcases hab with h1 | ⟨e1, l1⟩
    · rcases hbc with h2 | ⟨e2, _⟩
      · exact Or.inl (h1.trans h2)
      · exact Or.inl (e2 ▸ h1)
    · rcases hbc with h2 | ⟨e2, l2⟩
      · exact Or.inl (e1 ▸ h2)
      · exact Or.inr ⟨e1.trans e2, l1.trans l2⟩⟩

/-- The index/value pairs of a list of values. -/
def enumVals (vals : List ℚ) : List (Nat × ℚ) :=
  (List.range vals.length).map (fun i => (i, vals.getD i 0))

/-- Model of `argsort(axis=-1)` on one cell's value vector: the indices that put the
values in ascending order. -/
def argsortQ (vals : List ℚ) : List Nat :=
  (List.insertionSort pairLe (enumVals vals)).map Prod.fst

/-- Model of `param.isel(params_dim=sorted_indices)` on one cell: reindex by `perm`. -/
def permuteQ (vals : List ℚ) (perm : List Nat) : List ℚ :=
  perm.map (fun k => vals.getD k 0)

/-- One iteration of the `sort` loop: fetch the current values matching
`param_name`, reorder them by `perm`, write back via `assign`. -/
def sortStep (perm : List Nat) (d : ModelResult) (param_name : String) : ModelResult :=
  _assign d ((permuteQ (matchedValues d param_name) perm).map XRat.fin) param_name

/-- Source `sort(target_param_name, params_name)` on one cell: compute the argsort
permutation of the target's values once, then apply it to every listed
parameter via `assign`. -/
def sortCell (target_param_name : String) (params_name : List String)
    (d : ModelResult) : ModelResult :=
  params_name.foldl (sortStep (argsortQ (matchedValues d target_param_name))) d

/-- Write-back step of `smoothen` on one cell: the smoothed values (produced
by the external `gaussian_filter`) are written back through `assign`. -/
def smoothenWriteBack (d : ModelResult) (smoothed : List XRat) (param_name : String) :
    ModelResult :=
  _assign d smoothed param_name

/-- Fallback entry for positional `getD` access. -/
def pdefault : String × Param :=
  ("", { value := 0, min := XRat.negInf, max := XRat.posInf, vary := false })

/-! ### Basic lemmas about the embedding -/

theorem XRat.le_fin_fin {a b : ℚ} : XRat.le (.fin a) (.fin b) = true ↔ a ≤ b := by
  simp [XRat.le]

theorem XRat.le_refl' (a : XRat) : XRat.le a a = true := by
  cases a <;> simp [XRat.le]

theorem XRat.le_trans' {a b c : XRat} (h1 : XRat.le a b = true) (h2 : XRat.le b c = true) :
    XRat.le a c = true := by
  cases a <;> cases b <;> cases c <;> simp_all [XRat.le]
  exact le_trans h1 h2

theorem XRat.toRat_fin (q : ℚ) : XRat.toRat (.fin q) = q := rfl

theorem getD_map_lt {α β : Type} (f : α → β) (l : List α) (i : Nat) (d : α) (d' : β)
    (h : i < l.length) : (l.map f).getD i d' = f (l.getD i d) := by
  rw [List.getD_eq_getElem _ _ (by simpa using h), List.getD_eq_getElem _ _ h,
    List.getElem_map]

theorem range_map_getD {α : Type} (l : List α) (d : α) :
    (List.range l.length).map (fun j => l.getD j d) = l := by
  apply List.ext_getElem
  · simp
  · intro i h1 h2
    simp only [List.getElem_map, List.getElem_range]
    exact List.getD_eq_getElem l d h2

theorem range_map_succ_shift {β : Type} (len : Nat) (f : Nat → β) :
    (List.range (len + 1)).map f = f 0 :: (List.range len).map (fun j => f (j + 1)) := by
  rw [List.range_succ_eq_map, List.map_cons, List.map_map]
  rfl

theorem matchedParams_cons_pos {n s : String} (h : endsW n s = true) (p : Param)
    (rest : ModelResult) :
    matchedParams ((n, p) :: rest) s = p :: matchedParams rest s := by
  simp [matchedParams, List.filter_cons, h]

theorem matchedParams_cons_neg {n s : String} (h : endsW n s = false) (p : Param)
    (rest : ModelResult) :
    matchedParams ((n, p) :: rest) s = matchedParams rest s := by
  simp [matchedParams, List.filter_cons, h]

theorem matchedValues_eq_map (d : ModelResult) (s : String) :
    matchedValues d s = (matchedParams d s).map Param.value := rfl

theorem get_value_eq (d : ModelResult) (s : String) :
    _get d s .value = (matchedValues d s).map XRat.fin := by
  simp [_get, matchedValues, matchedParams, attrOf, List.map_map]

theorem get_eq_map_attr (d : ModelResult) (s : String) (a : PAttr) :
    _get d s a = (matchedParams d s).map (fun p => attrOf p a) := by
  simp [_get, matchedParams, List.map_map]

theorem assignAux_cons_pos {n s : String} (h : endsW n s = true) (new : List XRat)
    (p : Param) (rest : ModelResult) (i : Nat) :
    assignAux new s ((n, p) :: rest) i =
      (n, { p with value := (new.getD i (.fin 0)).toRat,
                   min := XRat.negInf, max := XRat.posInf })
        :: assignAux new s rest (i + 1) := by
  simp [assignAux, h]

theorem assignAux_cons_neg {n s : String} (h : endsW n s = false) (new : List XRat)
    (p : Param) (rest : ModelResult) (i : Nat) :
    assignAux new s ((n, p) :: rest) i = (n, p) :: assignAux new s rest i := by
  simp [assignAux, h]

/-! ### Lemmas about `_assign` -/

theorem assignAux_keys (new : List XRat) (s : String) :
    ∀ (d : ModelResult) (i : Nat), (assignAux new s d i).map Prod.fst = d.map Prod.fst
  | [], _ => rfl
  | (n, p) :: rest, i => by
    cases h : endsW n s
    · rw [assignAux_cons_neg h, List.map_cons, List.map_cons,
        assignAux_keys new s rest i]
    · rw [assignAux_cons_pos h, List.map_cons, List.map_cons,
        assignAux_keys new s rest (i + 1)]

theorem assignAux_length (new : List XRat) (s : String) (d : ModelResult) (i : Nat) :
    (assignAux new s d i).length = d.length := by
  have := congrArg List.length (assignAux_keys new s d i)
  simpa using this

theorem matchedValues_assignAux (new : List XRat) (s : String) :
    ∀ (d : ModelResult) (i : Nat),
      matchedValues (assignAux new s d i) s =
        (List.range (matchedParams d s).length).map
          (fun j => (new.getD (i + j) (.fin 0)).toRat)
  | [], _ => by simp [assignAux, matchedValues, matchedParams]
  | (n, p) :: rest, i => by
    cases h : endsW n s
    · rw [assignAux_cons_neg h, matchedValues_eq_map, matchedParams_cons_neg h,
        matchedParams_cons_neg h, ← matchedValues_eq_map,
        matchedValues_assignAux new s rest i]
    · rw [assignAux_cons_pos h, matchedValues_eq_map, matchedParams_cons_pos h,
        matchedParams_cons_pos h, List.map_cons, List.length_cons,
        range_map_succ_shift, ← matchedValues_eq_map,
        matchedValues_assignAux new s rest (i + 1)]
      congr 1
      apply List.map_congr_left
      intro j _
      have hij : i + 1 + j = i + (j + 1) := by omega
      rw [hij]

theorem matchedParams_assignAux_bounds (new : List XRat) (s : String) :
    ∀ (d : ModelResult) (i : Nat),
      ∀ p ∈ matchedParams (assignAux new s d i) s,
        p.min = XRat.negInf ∧ p.max = XRat.posInf
  | [], _ => by simp [assignAux, matchedParams]
  | (n, p) :: rest, i => by
    cases h : endsW n s
    · rw [assignAux_cons_neg h, matchedParams_cons_neg h]
      exact matchedParams_assignAux_bounds new s rest i
    · rw [assignAux_cons_pos h, matchedParams_cons_pos h]
      intro q hq
      rcases List.mem_cons.mp hq with h1 | h1
      · subst h1; exact ⟨rfl, rfl⟩
      · exact matchedParams_assignAux_bounds new s rest (i + 1) q h1

theorem assignAux_entry (new : List XRat) (s : String) :
    ∀ (d : ModelResult) (i j : Nat), j < d.length →
      (((assignAux new s d i).getD j pdefault).1 = (d.getD j pdefault).1) ∧
      (endsW (d.getD j pdefault).1 s = true →
        ((assignAux new s d i).getD j pdefault).2.min = XRat.negInf ∧
        ((assignAux new s d i).getD j pdefault).2.max = XRat.posInf) ∧
      (endsW (d.getD j pdefault).1 s = false →
        (assignAux new s d i).getD j pdefault = d.getD j pdefault)
  | [], _, j, hj => by simp at hj
  | (n, p) :: rest, i, 0, _ => by
    cases h : endsW n s
    · rw [assignAux_cons_neg h]
      exact ⟨rfl, fun hm => by rw [List.getD_cons_zero] at hm ⊢; simp [hm] at h, fun _ => rfl⟩
    · rw [assignAux_cons_pos h]
      exact ⟨rfl, fun _ => ⟨rfl, rfl⟩, fun hm => by rw [List.getD_cons_zero] at hm; simp [hm] at h⟩
  | (n, p) :: rest, i, j + 1, hj => by
    have hj' : j < rest.length := by simpa using hj
    cases h : endsW n s
    · rw [assignAux_cons_neg h, List.getD_cons_succ, List.getD_cons_succ]
      exact assignAux_entry new s rest i j hj'
    · rw [assignAux_cons_pos h, List.getD_cons_succ, List.getD_cons_succ]
      exact assignAux_entry new s rest (i + 1) j hj'

theorem assignAux_other (new : List XRat) (s s' : String) :
    ∀ (d : ModelResult) (i : Nat),
      (∀ k ∈ d.map Prod.fst, ¬(endsW k s = true ∧ endsW k s' = true)) →
      matchedParams (assignAux new s d i) s' = matchedParams d s'
  | [], _, _ => rfl
  | (n, p) :: rest, i, hd => by
    have hn : ¬(endsW n s = true ∧ endsW n s' = true) := hd n (by simp)
    have hrest : ∀ k ∈ rest.map Prod.fst, ¬(endsW k s = true ∧ endsW k s' = true) :=
      fun k hk => hd k (by simp [hk])
    cases h : endsW n s
    · rw [assignAux_cons_neg h]
      cases h' : endsW n s'
      · rw [matchedParams_cons_neg h', matchedParams_cons_neg h']
        exact assignAux_other new s s' rest i hrest
      · rw [matchedParams_cons_pos h', matchedParams_cons_pos h',
          assignAux_other new s s' rest i hrest]
    · have h' : endsW n s' = false := by
        cases hs' : endsW n s'
        · rfl
        · exact absurd ⟨h, hs'⟩ hn
      rw [assignAux_cons_pos h, matchedParams_cons_neg h', matchedParams_cons_neg h']
      exact assignAux_other new s s' rest (i + 1) hrest

/-! ### Lemmas about `_set_bounds` -/

theorem setBoundsParam_eq (ratio tol : ℚ) (p : Param) (hv : p.vary = true) :
    setBoundsParam ratio tol p =
      { value := p.value,
        min := if XRat.le p.min (.fin p.value) then
                 XRat.fin (boundMin ratio tol p.value) else p.min,
        max := if XRat.le (.fin p.value) p.max then
                 XRat.fin (boundMax ratio tol p.value) else p.max,
        vary := p.vary } := by
  obtain ⟨v, mn, mx, vy⟩ := p
  simp only at hv
  subst hv
  cases h1 : XRat.le mn (XRat.fin v) <;>
    cases h2 : XRat.le (XRat.fin v) mx <;>
      simp [setBoundsParam, h1, h2]

theorem set_bounds_getD (ratio tol : ℚ) (d : ModelResult) (i : Nat) (hi : i < d.length) :
    (_set_bounds ratio tol d).getD i pdefault =
      ((d.getD i pdefault).1, setBoundsParam ratio tol (d.getD i pdefault).2) := by
  unfold _set_bounds
  exact getD_map_lt _ d i pdefault pdefault hi

theorem boundMin_le_value {ratio tol v : ℚ} (hr : 0 ≤ ratio) : boundMin ratio tol v ≤ v := by
  unfold boundMin
  split
  · rename_i h
    have h1 := (abs_le.mp h).1
    linarith
  · have h2 : 0 ≤ ratio * |v| := mul_nonneg hr (abs_nonneg v)
    linarith

theorem value_le_boundMax {ratio tol v : ℚ} (hr : 0 ≤ ratio) : v ≤ boundMax ratio tol v := by
  unfold boundMax
  split
  · rename_i h
    exact (abs_le.mp h).2
  · have h2 : 0 ≤ ratio * |v| := mul_nonneg hr (abs_nonneg v)
    linarith

theorem setBoundsParam_within {ratio tol : ℚ} {p : Param} (hr : 0 ≤ ratio)
    (hv : p.vary = true)
    (h1 : XRat.le p.min (.fin p.value) = true)
    (h2 : XRat.le (.fin p.value) p.max = true) :
    XRat.le (setBoundsParam ratio tol p).min (.fin (setBoundsParam ratio tol p).value) = true ∧
    XRat.le (.fin (setBoundsParam ratio tol p).value) (setBoundsParam ratio tol p).max = true := by
  rw [setBoundsParam_eq ratio tol p hv]
  simp only [h1, h2, if_true]
  exact ⟨XRat.le_fin_fin.mpr (boundMin_le_value hr),
    XRat.le_fin_fin.mpr (value_le_boundMax hr)⟩

theorem setBoundsParam_near_zero {ratio tol : ℚ} {p : Param}
    (hv : p.vary = true) (ht : |p.value| ≤ tol)
    (h1 : XRat.le p.min (.fin p.value) = true)
    (h2 : XRat.le (.fin p.value) p.max = true) :
    (setBoundsParam ratio tol p).min = .fin (-tol) ∧
    (setBoundsParam ratio tol p).max = .fin tol := by
  rw [setBoundsParam_eq ratio tol p hv]
  simp [h1, h2, boundMin, boundMax, ht]

theorem setBoundsParam_tighten {ratio tol : ℚ} {p : Param} (hr : 0 ≤ ratio)
    (hv : p.vary = true)
    (hmin : XRat.le p.min (.fin (boundMin ratio tol p.value)) = true)
    (hmax : XRat.le (.fin (boundMax ratio tol p.value)) p.max = true) :
    XRat.le p.min (setBoundsParam ratio tol p).min = true ∧
    XRat.le (setBoundsParam ratio tol p).max p.max = true := by
  have hle1 : XRat.le p.min (.fin p.value) = true :=
    XRat.le_trans' hmin (XRat.le_fin_fin.mpr (boundMin_le_value hr))
  have hle2 : XRat.le (.fin p.value) p.max = true :=
    XRat.le_trans' (XRat.le_fin_fin.mpr (value_le_boundMax hr)) hmax
  rw [setBoundsParam_eq ratio tol p hv]
  simp only [hle1, hle2, if_true]
  exact ⟨hmin, hmax⟩

/-! ### Lemmas about `argsort` and `sort` -/

theorem enumVals_map_fst (vals : List ℚ) :
    (enumVals vals).map Prod.fst = List.range vals.length := by
  simp [enumVals, List.map_map, Function.comp_def]

theorem argsortQ_perm_range (vals : List ℚ) :
    List.Perm (argsortQ vals) (List.range vals.length) :=
  (enumVals_map_fst vals) ▸ ((List.perm_insertionSort pairLe (enumVals vals)).map Prod.fst)

theorem argsortQ_length (vals : List ℚ) : (argsortQ vals).length = vals.length :=
  (argsortQ_perm_range vals).length_eq.trans (List.length_range _)

theorem mem_enumVals {vals : List ℚ} {a : Nat × ℚ} (h : a ∈ enumVals vals) :
    vals.getD a.1 0 = a.2 := by
  rcases List.mem_map.mp h with ⟨i, _, rfl⟩
  rfl

theorem pairLe_snd {a b : Nat × ℚ} (h : pairLe a b) : a.2 ≤ b.2 := by
  rcases h with h | ⟨h, _⟩
  · exact le_of_lt h
  · exact le_of_eq h

theorem sorted_permuteQ_argsortQ (vals : List ℚ) :
    List.Sorted (· ≤ ·) (permuteQ vals (argsortQ vals)) := by
  unfold permuteQ argsortQ
  rw [List.map_map]
  have hs := List.sorted_insertionSort pairLe (enumVals vals)
  have hmem : ∀ a ∈ List.insertionSort pairLe (enumVals vals),
      vals.getD a.1 0 = a.2 := by
    intro a ha
    exact mem_enumVals ((List.mem_insertionSort pairLe).mp ha)
  have hcomp : ((fun k => vals.getD k 0) ∘ Prod.fst) =
      fun a : Nat × ℚ => vals.getD a.1 0 := rfl
  rw [hcomp, List.map_congr_left hmem]
  exact List.Pairwise.map Prod.snd (fun a b hab => pairLe_snd hab) hs

theorem sortStep_keys (perm : List Nat) (d : ModelResult) (s : String) :
    (sortStep perm d s).map Prod.fst = d.map Prod.fst :=
  assignAux_keys _ s d 0

theorem matchedValues_sortStep_self (perm : List Nat) (d : ModelResult) (s : String)
    (hlen : perm.length = (matchedValues d s).length) :
    matchedValues (sortStep perm d s) s = permuteQ (matchedValues d s) perm := by
  unfold sortStep _assign
  rw [matchedValues_assignAux]
  have hlenp : (permuteQ (matchedValues d s) perm).length = (matchedParams d s).length := by
    rw [matchedValues_eq_map] at hlen
    simp [permuteQ, hlen]
  apply List.ext_getElem
  · simp [hlenp]
  · intro i h1 h2
    simp only [List.getElem_map, List.getElem_range]
    have hjlt : i < (permuteQ (matchedValues d s) perm).length := h2
    rw [Nat.zero_add, getD_map_lt XRat.fin _ i 0 (.fin 0) hjlt, XRat.toRat_fin]
    exact List.getD_eq_getElem _ 0 h2

theorem matchedParams_sortStep_other (perm : List Nat) (d : ModelResult) (s s' : String)
    (hdisj : ∀ k ∈ d.map Prod.fst, ¬(endsW k s = true ∧ endsW k s' = true)) :
    matchedParams (sortStep perm d s) s' = matchedParams d s' :=
  assignAux_other _ s s' d 0 hdisj

theorem foldl_sortStep_keys (perm : List Nat) :
    ∀ (names : List String) (d : ModelResult),
      (names.foldl (sortStep perm) d).map Prod.fst = d.map Prod.fst
  | [], _ => rfl
  | s0 :: rest, d => by
    rw [List.foldl_cons]
    exact (foldl_sortStep_keys perm rest (sortStep perm d s0)).trans
      (sortStep_keys perm d s0)

theorem matchedParams_foldl_other (perm : List Nat) :
    ∀ (names : List String) (d : ModelResult) (s' : String),
      (∀ s ∈ names, ∀ k ∈ d.map Prod.fst, ¬(endsW k s = true ∧ endsW k s' = true)) →
      matchedParams (names.foldl (sortStep perm) d) s' = matchedParams d s'
  | [], _, _, _ => rfl
  | s0 :: rest, d, s', hd => by
    rw [List.foldl_cons]
    have hkeys := sortStep_keys perm d s0
    have hrest : ∀ s ∈ rest, ∀ k ∈ (sortStep perm d s0).map Prod.fst,
        ¬(endsW k s = true ∧ endsW k s' = true) := by
      intro s hs k hk
      rw [hkeys] at hk
      exact hd s (List.mem_cons_of_mem s0 hs) k hk
    rw [matchedParams_foldl_other perm rest (sortStep perm d s0) s' hrest]
    exact matchedParams_sortStep_other perm d s0 s' (hd s0 (List.mem_cons_self s0 rest))

/-- Two suffixes match disjoint sets of the given parameter names. -/
def disjKeys (keys : List String) (s1 s2 : String) : Prop :=
  ∀ k ∈ keys, ¬(endsW k s1 = true ∧ endsW k s2 = true)

theorem matchedValues_sortFold (perm : List Nat) :
    ∀ (names : List String) (d : ModelResult),
      List.Pairwise (disjKeys (d.map Prod.fst)) names →
      (∀ s ∈ names, perm.length = (matchedValues d s).length) →
      ∀ s ∈ names,
        matchedValues (names.foldl (sortStep perm) d) s =
          permuteQ (matchedValues d s) perm
  | [], _, _, _, s, hs => absurd hs (List.not_mem_nil s)
  | s0 :: rest, d, hpw, hlen, s, hs => by
    have hpw0 : ∀ s' ∈ rest, disjKeys (d.map Prod.fst) s0 s' :=
      (List.pairwise_cons.mp hpw).1
    have hpwrest : List.Pairwise (disjKeys (d.map Prod.fst)) rest :=
      (List.pairwise_cons.mp hpw).2
    have hkeys := sortStep_keys perm d s0
    rw [List.foldl_cons]
    have hother : ∀ s' ∈ rest,
        matchedParams (sortStep perm d s0) s' = matchedParams d s' := by
      intro s' hs'
      exact matchedParams_sortStep_other perm d s0 s' (hpw0 s' hs')
    rcases List.mem_cons.mp hs with rfl | hmem
    · have h1 : matchedValues (sortStep perm d s) s = permuteQ (matchedValues d s) perm :=
        matchedValues_sortStep_self perm d s (hlen s (List.mem_cons_self s rest))
      have hfr : matchedParams (rest.foldl (sortStep perm) (sortStep perm d s)) s =
          matchedParams (sortStep perm d s) s := by
        apply matchedParams_foldl_other
        intro s' hs' k hk
        rw [hkeys] at hk
        intro hand
        exact hpw0 s' hs' k hk ⟨hand.2, hand.1⟩
      rw [matchedValues_eq_map, hfr, ← matchedValues_eq_map, h1]
    · have hlen' : ∀ s' ∈ rest, perm.length = (matchedValues (sortStep perm d s0) s').length := by
        intro s' hs'
        rw [matchedValues_eq_map, hother s' hs', ← matchedValues_eq_map]
        exact hlen s' (List.mem_cons_of_mem s0 hs')
      have hpwrest' : List.Pairwise (disjKeys ((sortStep perm d s0).map Prod.fst)) rest := by
        rw [hkeys]
        exact hpwrest
      have ih := matchedValues_sortFold perm rest (sortStep perm d s0) hpwrest' hlen' s hmem
      rw [ih, matchedValues_eq_map, hother s hmem, ← matchedValues_eq_map]

instance (keys : List String) : DecidableRel (disjKeys keys) := fun s1 s2 => by
  unfold disjKeys
  infer_instance

theorem matchedParams_assign_length (d : ModelResult) (new : List XRat) (s : String) :
    (matchedParams (_assign d new s) s).length = (matchedParams d s).length := by
  have h := congrArg List.length (matchedValues_assignAux new s d 0)
  simpa [matchedValues_eq_map] using h

theorem foldl_sortStep_entry (perm : List Nat) :
    ∀ (names : List String) (d : ModelResult) (i : Nat), i < d.length →
      (((names.foldl (sortStep perm) d).getD i pdefault).1 = (d.getD i pdefault).1) ∧
      ((∃ s ∈ names, endsW (d.getD i pdefault).1 s = true) →
        ((names.foldl (sortStep perm) d).getD i pdefault).2.min = XRat.negInf ∧
        ((names.foldl (sortStep perm) d).getD i pdefault).2.max = XRat.posInf) ∧
      ((∀ s ∈ names, endsW (d.getD i pdefault).1 s = false) →
        (names.foldl (sortStep perm) d).getD i pdefault = d.getD i pdefault)
  | [], d, i, _ =>
    ⟨rfl, fun h => by
      rcases h with ⟨s, hs, _⟩
      exact absurd hs (List.not_mem_nil s), fun _ => rfl⟩
  | s0 :: rest, d, i, hi => by
    have hentry := assignAux_entry ((permuteQ (matchedValues d s0) perm).map XRat.fin)
      s0 d 0 i hi
    have hkey1 : ((sortStep perm d s0).getD i pdefault).1 = (d.getD i pdefault).1 :=
      hentry.1
    have hi1 : i < (sortStep perm d s0).length := by
      have hl : (sortStep perm d s0).length = d.length :=
        assignAux_length _ s0 d 0
      rw [hl]
      exact hi
    have ih := foldl_sortStep_entry perm rest (sortStep perm d s0) i hi1
    rw [List.foldl_cons]
    refine ⟨ih.1.trans hkey1, ?_, ?_⟩
    · rintro ⟨s, hs, hmatch⟩
      rcases List.mem_cons.mp hs with rfl | hsr
      · have hb1 := hentry.2.1 hmatch
        by_cases hex : ∃ s' ∈ rest, endsW ((sortStep perm d s).getD i pdefault).1 s' = true
        · exact ih.2.1 hex
        · have hall : ∀ s' ∈ rest, endsW ((sortStep perm d s).getD i pdefault).1 s' = false := by
            intro s' hs'
            cases hcs : endsW ((sortStep perm d s).getD i pdefault).1 s'
            · rfl
            · exact absurd ⟨s', hs', hcs⟩ hex
          rw [ih.2.2 hall]
          exact hb1
      · refine ih.2.1 ⟨s, hsr, ?_⟩
        rw [hkey1]
        exact hmatch
    · intro hall
      have h0 : endsW (d.getD i pdefault).1 s0 = false :=
        hall s0 (List.mem_cons_self s0 rest)
      have hunch : (sortStep perm d s0).getD i pdefault = d.getD i pdefault :=
        hentry.2.2 h0
      have hrest : ∀ s ∈ rest, endsW ((sortStep perm d s0).getD i pdefault).1 s = false := by
        intro s hs
        rw [hkey1]
        exact hall s (List.mem_cons_of_mem s0 hs)
      rw [ih.2.2 hrest, hunch]

/-! ### Claims -/

/-- C1 counterexample: `set_bounds` can loosen an existing bound.  For the
varying parameter `p1_center` with value 10, pre-call bounds `[8, 12]` and
`bound_ratio = 1/2`, the code replaces the bounds by `[5, 15]` (because the
guards only compare the old bound to the value, not to the new bound), so
the new min is below the pre-call min and the new max is above the pre-call
max: the claimed "never loosen" monotonicity fails. -/
theorem set_bounds_can_widen_cex :
    XRat.le (XRat.fin 8)
      (((_set_bounds (mkRat 1 2) (mkRat 1 1000)
          [("p1_center",
            { value := 10, min := XRat.fin 8, max := XRat.fin 12, vary := true })]).getD
        0 pdefault).2.min) = false ∧
    XRat.le
      (((_set_bounds (mkRat 1 2) (mkRat 1 1000)
          [("p1_center",
            { value := 10, min := XRat.fin 8, max := XRat.fin 12, vary := true })]).getD
        0 pdefault).2.max) (XRat.fin 12) = false := by
  with_unfolding_all decide

/-- C1 (amended): for every varying parameter, `set_bounds` with
`bound_ratio ≥ 0` does not loosen a bound provided the pre-call bounds
already contain the computed window `[boundMin, boundMax]`
(`value ∓ bound_ratio·|value|`, or `∓bound_tol` in the near-zero case):
then the post-call min is ≥ the pre-call min and the post-call max is
≤ the pre-call max.  Without that proviso the code overwrites a bound
whenever the old bound does not exclude the value, which can widen it. -/
theorem set_bounds_never_loosens_amended (ratio tol : ℚ) (d : ModelResult) (i : Nat)
    (hi : i < d.length) (hr : 0 ≤ ratio)
    (hv : (d.getD i pdefault).2.vary = true)
    (hmin : XRat.le (d.getD i pdefault).2.min
      (.fin (boundMin ratio tol (d.getD i pdefault).2.value)) = true)
    (hmax : XRat.le (.fin (boundMax ratio tol (d.getD i pdefault).2.value))
      (d.getD i pdefault).2.max = true) :
    XRat.le (d.getD i pdefault).2.min
      (((_set_bounds ratio tol d).getD i pdefault).2.min) = true ∧
    XRat.le (((_set_bounds ratio tol d).getD i pdefault).2.max)
      (d.getD i pdefault).2.max = true := by
  rw [set_bounds_getD ratio tol d i hi]
  exact setBoundsParam_tighten hr hv hmin hmax

/-- C1 witness: the amended theorem applied to a single-cell result with one
varying parameter of value 10 and unbounded pre-call bounds. -/
theorem set_bounds_never_loosens_amended_witness :
    (0 : Nat) < 1 ∧ (0 : ℚ) ≤ mkRat 1 2 ∧
    (([("p1_center",
        { value := 10, min := XRat.negInf, max := XRat.posInf, vary := true })] :
        ModelResult).getD 0 pdefault).2.vary = true ∧
    XRat.le (([("p1_center",
        { value := 10, min := XRat.negInf, max := XRat.posInf, vary := true })] :
        ModelResult).getD 0 pdefault).2.min
      (.fin (boundMin (mkRat 1 2) (mkRat 1 1000)
        (([("p1_center",
          { value := 10, min := XRat.negInf, max := XRat.posInf, vary := true })] :
          ModelResult).getD 0 pdefault).2.value)) = true ∧
    (XRat.le ((([("p1_center",
        { value := 10, min := XRat.negInf, max := XRat.posInf, vary := true })] :
        ModelResult).getD 0 pdefault).2.min)
      (((_set_bounds (mkRat 1 2) (mkRat 1 1000)
        [("p1_center",
          { value := 10, min := XRat.negInf, max := XRat.posInf, vary := true })]).getD
        0 pdefault).2.min) = true ∧
    XRat.le (((_set_bounds (mkRat 1 2) (mkRat 1 1000)
        [("p1_center",
          { value := 10, min := XRat.negInf, max := XRat.posInf, vary := true })]).getD
        0 pdefault).2.max)
      ((([("p1_center",
        { value := 10, min := XRat.negInf, max := XRat.posInf, vary := true })] :
        ModelResult).getD 0 pdefault).2.max) = true) :=
  ⟨by with_unfolding_all decide, by with_unfolding_all decide, by with_unfolding_all decide, by with_unfolding_all decide,
    set_bounds_never_loosens_amended (mkRat 1 2) (mkRat 1 1000)
      [("p1_center", { value := 10, min := XRat.negInf, max := XRat.posInf, vary := true })]
      0 (by with_unfolding_all decide) (by with_unfolding_all decide) (by with_unfolding_all decide) (by with_unfolding_all decide) (by with_unfolding_all decide)⟩

/-- C2: for every varying parameter whose pre-call state satisfies the data
model invariant `min ≤ value ≤ max`, after `set_bounds` with
`bound_ratio ≥ 0` the parameter still satisfies `min ≤ value ≤ max`. -/
theorem set_bounds_within_bounds (ratio tol : ℚ) (d : ModelResult) (i : Nat)
    (hi : i < d.length) (hr : 0 ≤ ratio)
    (hv : (d.getD i pdefault).2.vary = true)
    (h1 : XRat.le (d.getD i pdefault).2.min (.fin (d.getD i pdefault).2.value) = true)
    (h2 : XRat.le (.fin (d.getD i pdefault).2.value) (d.getD i pdefault).2.max = true) :
    XRat.le (((_set_bounds ratio tol d).getD i pdefault).2.min)
      (.fin (((_set_bounds ratio tol d).getD i pdefault).2.value)) = true ∧
    XRat.le (.fin (((_set_bounds ratio tol d).getD i pdefault).2.value))
      (((_set_bounds ratio tol d).getD i pdefault).2.max) = true := by
  rw [set_bounds_getD ratio tol d i hi]
  exact setBoundsParam_within hr hv h1 h2

/-- C2 witness: the theorem applied to a single-cell result with one varying
parameter of value 10 and pre-call bounds `[8, 12]`. -/
theorem set_bounds_within_bounds_witness :
    (0 : Nat) < 1 ∧ (0 : ℚ) ≤ mkRat 1 2 ∧
    XRat.le (((_set_bounds (mkRat 1 2) (mkRat 1 1000)
        [("p1_center",
          { value := 10, min := XRat.fin 8, max := XRat.fin 12, vary := true })]).getD
        0 pdefault).2.min)
      (.fin (((_set_bounds (mkRat 1 2) (mkRat 1 1000)
        [("p1_center",
          { value := 10, min := XRat.fin 8, max := XRat.fin 12, vary := true })]).getD
        0 pdefault).2.value)) = true ∧
    XRat.le (.fin (((_set_bounds (mkRat 1 2) (mkRat 1 1000)
        [("p1_center",
          { value := 10, min := XRat.fin 8, max := XRat.fin 12, vary := true })]).getD
        0 pdefault).2.value))
      (((_set_bounds (mkRat 1 2) (mkRat 1 1000)
        [("p1_center",
          { value := 10, min := XRat.fin 8, max := XRat.fin 12, vary := true })]).getD
        0 pdefault).2.max) = true :=
  ⟨by with_unfolding_all decide, by with_unfolding_all decide,
    set_bounds_within_bounds (mkRat 1 2) (mkRat 1 1000)
      [("p1_center", { value := 10, min := XRat.fin 8, max := XRat.fin 12, vary := true })]
      0 (by with_unfolding_all decide) (by with_unfolding_all decide) (by with_unfolding_all decide) (by with_unfolding_all decide) (by with_unfolding_all decide)⟩

/-- C3: writing back via `assign` the array produced by `get` leaves a
subsequent `get` of the `value` attribute unchanged, for every cell and
every name suffix. -/
theorem get_assign_get_roundtrip (d : ModelResult) (s : String) :
    _get (_assign d (_get d s .value) s) s .value = _get d s .value := by
  rw [get_value_eq, get_value_eq]
  congr 1
  unfold _assign
  rw [matchedValues_assignAux]
  apply List.ext_getElem
  · simp [matchedValues_eq_map]
  · intro i h1 h2
    simp only [List.getElem_map, List.getElem_range]
    rw [Nat.zero_add, getD_map_lt XRat.fin _ i 0 (.fin 0) h2, XRat.toRat_fin]
    exact List.getD_eq_getElem _ 0 h2

/-- C4 counterexample: when `target_param_name` is not listed in
`params_name`, `sort` reorders the listed parameters by the target's
permutation but never rewrites the target itself, so the target's values
need not be non-decreasing afterwards: sorting by `center` while listing
only `amp` leaves the center values at `[5, 2]`. -/
theorem sort_target_not_listed_cex :
    matchedValues
      (sortCell "center" ["amp"]
        [("p1_center", { value := 5, min := XRat.negInf, max := XRat.posInf, vary := true }),
         ("p2_center", { value := 2, min := XRat.negInf, max := XRat.posInf, vary := true }),
         ("p1_amp", { value := 1, min := XRat.negInf, max := XRat.posInf, vary := true }),
         ("p2_amp", { value := 3, min := XRat.negInf, max := XRat.posInf, vary := true })])
      "center" = [5, 2] ∧
    ¬ List.Sorted (· ≤ ·) [(5 : ℚ), 2] := by
  with_unfolding_all decide

/-- C4 (amended): provided `target_param_name` is itself listed in
`params_name` (as in the default call), the listed suffixes match pairwise
disjoint sets of parameter names, and every listed suffix matches as many
parameters as the target (the uniform-schema invariant), then after `sort`
the target's values are non-decreasing in every cell, and every listed
parameter is reordered by the same argsort permutation of the
parameter-index dimension, so pairwise grouping is preserved. -/
theorem sort_sorted_and_grouped_amended (t : String) (names : List String)
    (d : ModelResult) (hmem : t ∈ names)
    (hdisj : List.Pairwise (disjKeys (d.map Prod.fst)) names)
    (hcount : ∀ s ∈ names, (matchedValues d s).length = (matchedValues d t).length) :
    List.Sorted (· ≤ ·) (matchedValues (sortCell t names d) t) ∧
    (∀ s ∈ names, matchedValues (sortCell t names d) s =
      permuteQ (matchedValues d s) (argsortQ (matchedValues d t))) ∧
    List.Perm (argsortQ (matchedValues d t)) (List.range (matchedValues d t).length) := by
  have hlen : ∀ s ∈ names,
      (argsortQ (matchedValues d t)).length = (matchedValues d s).length :=
    fun s hs => (argsortQ_length _).trans (hcount s hs).symm
  have hvals := matchedValues_sortFold (argsortQ (matchedValues d t)) names d hdisj hlen
  have hcell : sortCell t names d =
      names.foldl (sortStep (argsortQ (matchedValues d t))) d := rfl
  refine ⟨?_, ?_, argsortQ_perm_range _⟩
  · rw [hcell, hvals t hmem]
    exact sorted_permuteQ_argsortQ _
  · intro s hs
    rw [hcell]
    exact hvals s hs

/-- C4 witness: the amended theorem applied to one cell holding parameters
`p1_center = 5, p2_center = 2, p1_amp = 1, p2_amp = 3` with
`sort("center", ["amp", "center"])`. -/
theorem sort_sorted_and_grouped_amended_witness :
    ("center" ∈ ["amp", "center"]) ∧
    List.Pairwise
      (disjKeys (([("p1_center", { value := 5, min := XRat.negInf, max := XRat.posInf, vary := true }),
         ("p2_center", { value := 2, min := XRat.negInf, max := XRat.posInf, vary := true }),
         ("p1_amp", { value := 1, min := XRat.negInf, max := XRat.posInf, vary := true }),
         ("p2_amp", { value := 3, min := XRat.negInf, max := XRat.posInf, vary := true })] :
          ModelResult).map Prod.fst)) ["amp", "center"] ∧
    (List.Sorted (· ≤ ·)
      (matchedValues
        (sortCell "center" ["amp", "center"]
          [("p1_center", { value := 5, min := XRat.negInf, max := XRat.posInf, vary := true }),
           ("p2_center", { value := 2, min := XRat.negInf, max := XRat.posInf, vary := true }),
           ("p1_amp", { value := 1, min := XRat.negInf, max := XRat.posInf, vary := true }),
           ("p2_amp", { value := 3, min := XRat.negInf, max := XRat.posInf, vary := true })])
        "center")) :=
  ⟨by with_unfolding_all decide, by with_unfolding_all decide,
    (sort_sorted_and_grouped_amended "center" ["amp", "center"]
      [("p1_center", { value := 5, min := XRat.negInf, max := XRat.posInf, vary := true }),
       ("p2_center", { value := 2, min := XRat.negInf, max := XRat.posInf, vary := true }),
       ("p1_amp", { value := 1, min := XRat.negInf, max := XRat.posInf, vary := true }),
       ("p2_amp", { value := 3, min := XRat.negInf, max := XRat.posInf, vary := true })]
      (by with_unfolding_all decide) (by with_unfolding_all decide)
      (by with_unfolding_all decide)).1⟩

/-- C6: `get` returns exactly the requested attribute of the parameters
whose name ends with the suffix, in stored order, for every cell and every
suffix: its length equals the number of matching names, its i-th entry is
the attribute of the i-th matching parameter, and zero matches give the
empty sequence (no error). -/
theorem get_matches_exactly (d : ModelResult) (s : String) (a : PAttr) :
    (_get d s a).length = ((d.map Prod.fst).filter (fun k => endsW k s)).length ∧
    (∀ i, i < (matchedParams d s).length →
      (_get d s a).getD i (XRat.fin 0) = attrOf ((matchedParams d s).getD i pdefault.2) a) ∧
    (((d.map Prod.fst).filter (fun k => endsW k s)).length = 0 → _get d s a = []) := by
  have hfm : (d.map Prod.fst).filter (fun k => endsW k s)
      = (d.filter (fun e => endsW e.1 s)).map Prod.fst := by
    rw [List.filter_map]
    rfl
  refine ⟨?_, ?_, ?_⟩
  · rw [get_eq_map_attr, hfm]
    simp [matchedParams]
  · intro i hi
    rw [get_eq_map_attr]
    exact getD_map_lt _ _ i pdefault.2 (XRat.fin 0) hi
  · intro h0
    rw [hfm] at h0
    have hmp : (matchedParams d s).length = 0 := by
      simpa [matchedParams] using h0
    rw [get_eq_map_attr, List.length_eq_zero.mp hmp]
    rfl

/-- C6 witness: the theorem applied to a cell with parameters
`p1_center = 5, x_amp = 7, p2_center = 2`: the indexed conjunct at suffix
`center`, attribute `value`, position 1, and the zero-match conjunct at
suffix `sigma`, which matches nothing and yields the empty sequence. -/
theorem get_matches_exactly_witness :
    1 < (matchedParams
      [("p1_center", { value := 5, min := XRat.negInf, max := XRat.posInf, vary := true }),
       ("x_amp", { value := 7, min := XRat.negInf, max := XRat.posInf, vary := true }),
       ("p2_center", { value := 2, min := XRat.negInf, max := XRat.posInf, vary := true })]
      "center").length ∧
    ((_get
      [("p1_center", { value := 5, min := XRat.negInf, max := XRat.posInf, vary := true }),
       ("x_amp", { value := 7, min := XRat.negInf, max := XRat.posInf, vary := true }),
       ("p2_center", { value := 2, min := XRat.negInf, max := XRat.posInf, vary := true })]
      "center" .value).getD 1 (XRat.fin 0) =
      attrOf ((matchedParams
        [("p1_center", { value := 5, min := XRat.negInf, max := XRat.posInf, vary := true }),
         ("x_amp", { value := 7, min := XRat.negInf, max := XRat.posInf, vary := true }),
         ("p2_center", { value := 2, min := XRat.negInf, max := XRat.posInf, vary := true })]
        "center").getD 1 pdefault.2) .value) ∧
    ((([("p1_center", { value := 5, min := XRat.negInf, max := XRat.posInf, vary := true }),
       ("x_amp", { value := 7, min := XRat.negInf, max := XRat.posInf, vary := true }),
       ("p2_center", { value := 2, min := XRat.negInf, max := XRat.posInf, vary := true })] :
        ModelResult).map Prod.fst |>.filter (fun k => endsW k "sigma")).length = 0) ∧
    (_get
      [("p1_center", { value := 5, min := XRat.negInf, max := XRat.posInf, vary := true }),
       ("x_amp", { value := 7, min := XRat.negInf, max := XRat.posInf, vary := true }),
       ("p2_center", { value := 2, min := XRat.negInf, max := XRat.posInf, vary := true })]
      "sigma" .value = []) :=
  ⟨by with_unfolding_all decide,
    (get_matches_exactly
      [("p1_center", { value := 5, min := XRat.negInf, max := XRat.posInf, vary := true }),
       ("x_amp", { value := 7, min := XRat.negInf, max := XRat.posInf, vary := true }),
       ("p2_center", { value := 2, min := XRat.negInf, max := XRat.posInf, vary := true })]
      "center" .value).2.1 1 (by with_unfolding_all decide),
    by with_unfolding_all decide,
    (get_matches_exactly
      [("p1_center", { value := 5, min := XRat.negInf, max := XRat.posInf, vary := true }),
       ("x_amp", { value := 7, min := XRat.negInf, max := XRat.posInf, vary := true }),
       ("p2_center", { value := 2, min := XRat.negInf, max := XRat.posInf, vary := true })]
      "sigma" .value).2.2 (by with_unfolding_all decide)⟩

/-- C7: a varying parameter with `|value| ≤ bound_tol` whose pre-call bounds
do not exclude the value gets the exact symmetric window
`min = -bound_tol`, `max = +bound_tol` from `set_bounds`. -/
theorem set_bounds_near_zero_clamps (ratio tol : ℚ) (d : ModelResult) (i : Nat)
    (hi : i < d.length)
    (hv : (d.getD i pdefault).2.vary = true)
    (ht : |(d.getD i pdefault).2.value| ≤ tol)
    (h1 : XRat.le (d.getD i pdefault).2.min (.fin (d.getD i pdefault).2.value) = true)
    (h2 : XRat.le (.fin (d.getD i pdefault).2.value) (d.getD i pdefault).2.max = true) :
    ((_set_bounds ratio tol d).getD i pdefault).2.min = .fin (-tol) ∧
    ((_set_bounds ratio tol d).getD i pdefault).2.max = .fin tol := by
  rw [set_bounds_getD ratio tol d i hi]
  exact setBoundsParam_near_zero hv ht h1 h2

/-- C7 witness: the claim's scenario, a parameter with value 0.0005 and
`bound_tol = 1e-3` ends with `min = -1e-3` and `max = 1e-3` exactly. -/
theorem set_bounds_near_zero_clamps_witness :
    |(([("a_center",
        { value := mkRat 1 2000, min := XRat.negInf, max := XRat.posInf, vary := true })] :
        ModelResult).getD 0 pdefault).2.value| ≤ mkRat 1 1000 ∧
    ((_set_bounds (mkRat 1 10) (mkRat 1 1000)
        [("a_center",
          { value := mkRat 1 2000, min := XRat.negInf, max := XRat.posInf, vary := true })]).getD
      0 pdefault).2.min = .fin (-(mkRat 1 1000)) ∧
    ((_set_bounds (mkRat 1 10) (mkRat 1 1000)
        [("a_center",
          { value := mkRat 1 2000, min := XRat.negInf, max := XRat.posInf, vary := true })]).getD
      0 pdefault).2.max = .fin (mkRat 1 1000) :=
  ⟨by with_unfolding_all decide,
    (set_bounds_near_zero_clamps (mkRat 1 10) (mkRat 1 1000)
      [("a_center",
        { value := mkRat 1 2000, min := XRat.negInf, max := XRat.posInf, vary := true })]
      0 (by with_unfolding_all decide) (by with_unfolding_all decide)
      (by with_unfolding_all decide) (by with_unfolding_all decide)
      (by with_unfolding_all decide)).1,
    (set_bounds_near_zero_clamps (mkRat 1 10) (mkRat 1 1000)
      [("a_center",
        { value := mkRat 1 2000, min := XRat.negInf, max := XRat.posInf, vary := true })]
      0 (by with_unfolding_all decide) (by with_unfolding_all decide)
      (by with_unfolding_all decide) (by with_unfolding_all decide)
      (by with_unfolding_all decide)).2⟩

/-- C8: the sigma vector `smoothen` hands to the smoothing filter has one
entry per axis, is 0 on the trailing parameter-index axis, and is `sigma`
on every other axis, so no smoothing is requested across the
parameter-index dimension. -/
theorem smoothen_sigma_zero_on_param_axis (ndim : Nat) (sigma : Int) (h : 0 < ndim) :
    (smoothingSigma ndim sigma).length = ndim ∧
    (smoothingSigma ndim sigma).getD (ndim - 1) 1 = 0 ∧
    (∀ i, i < ndim - 1 → (smoothingSigma ndim sigma).getD i 0 = sigma) := by
  refine ⟨by simp [smoothingSigma], ?_, ?_⟩
  · have hlt : ndim - 1 < (List.range ndim).length := by
      simp only [List.length_range]
      omega
    unfold smoothingSigma
    rw [getD_map_lt _ _ (ndim - 1) 0 1 hlt]
    have hr : (List.range ndim).getD (ndim - 1) 0 = ndim - 1 := by
      rw [List.getD_eq_getElem _ _ hlt, List.getElem_range]
    rw [hr]
    simp
  · intro i hilt
    have hlt : i < (List.range ndim).length := by
      simp only [List.length_range]
      omega
    unfold smoothingSigma
    rw [getD_map_lt _ _ i 0 0 hlt]
    have hr : (List.range ndim).getD i 0 = i := by
      rw [List.getD_eq_getElem _ _ hlt, List.getElem_range]
    rw [hr, if_pos hilt]

/-- C8 witness: the theorem applied at 3 axes and sigma 5, giving the
sigma vector `[5, 5, 0]`. -/
theorem smoothen_sigma_zero_on_param_axis_witness :
    0 < 3 ∧
    ((smoothingSigma 3 5).length = 3 ∧
      (smoothingSigma 3 5).getD (3 - 1) 1 = 0 ∧
      (∀ i, i < 3 - 1 → (smoothingSigma 3 5).getD i 0 = 5)) :=
  ⟨by with_unfolding_all decide, smoothen_sigma_zero_on_param_axis 3 5 (by with_unfolding_all decide)⟩

/-- C9: `assign` writes `new[i]` into the value of the i-th matched
parameter and resets that parameter's bounds to `(-inf, +inf)`. -/
theorem assign_writes_and_clears_bounds (d : ModelResult) (new : List XRat)
    (s : String) (j : Nat) (hj : j < (matchedParams d s).length)
    (hjn : j < new.length) :
    ((matchedParams (_assign d new s) s).getD j pdefault.2).value =
      (new.getD j (.fin 0)).toRat ∧
    ((matchedParams (_assign d new s) s).getD j pdefault.2).min = XRat.negInf ∧
    ((matchedParams (_assign d new s) s).getD j pdefault.2).max = XRat.posInf := by
  have hlenpost : (matchedParams (_assign d new s) s).length = (matchedParams d s).length :=
    matchedParams_assign_length d new s
  have hjpost : j < (matchedParams (_assign d new s) s).length := by
    rw [hlenpost]
    exact hj
  have hmem : (matchedParams (_assign d new s) s).getD j pdefault.2 ∈
      matchedParams (_assign d new s) s := by
    rw [List.getD_eq_getElem _ _ hjpost]
    exact List.getElem_mem _
  have hbounds := matchedParams_assignAux_bounds new s d 0 _ hmem
  refine ⟨?_, hbounds.1, hbounds.2⟩
  have h1 : (matchedValues (_assign d new s) s).getD j 0 = (new.getD j (.fin 0)).toRat := by
    show (matchedValues (assignAux new s d 0) s).getD j 0 = _
    rw [matchedValues_assignAux]
    have hlt : j < (List.range (matchedParams d s).length).length := by
      simpa using hj
    rw [getD_map_lt _ _ j 0 0 hlt]
    have hr : (List.range (matchedParams d s).length).getD j 0 = j := by
      rw [List.getD_eq_getElem _ _ hlt, List.getElem_range]
    rw [hr, Nat.zero_add]
  rw [matchedValues_eq_map, getD_map_lt Param.value _ j pdefault.2 0 hjpost] at h1
  exact h1

/-- C9 witness: the theorem applied to a cell with two `center` parameters
and one `amp` parameter, assigning `[7, 9]` to the `center` suffix at
position 1. -/
theorem assign_writes_and_clears_bounds_witness :
    1 < (matchedParams
      [("p1_center", { value := 5, min := XRat.fin 1, max := XRat.fin 9, vary := true }),
       ("x_amp", { value := 7, min := XRat.fin 0, max := XRat.fin 8, vary := true }),
       ("p2_center", { value := 2, min := XRat.fin 1, max := XRat.fin 9, vary := true })]
      "center").length ∧
    1 < ([XRat.fin 7, XRat.fin 9].length) ∧
    (((matchedParams (_assign
      [("p1_center", { value := 5, min := XRat.fin 1, max := XRat.fin 9, vary := true }),
       ("x_amp", { value := 7, min := XRat.fin 0, max := XRat.fin 8, vary := true }),
       ("p2_center", { value := 2, min := XRat.fin 1, max := XRat.fin 9, vary := true })]
      [XRat.fin 7, XRat.fin 9] "center") "center").getD 1 pdefault.2).value =
        ([XRat.fin 7, XRat.fin 9].getD 1 (.fin 0)).toRat ∧
    ((matchedParams (_assign
      [("p1_center", { value := 5, min := XRat.fin 1, max := XRat.fin 9, vary := true }),
       ("x_amp", { value := 7, min := XRat.fin 0, max := XRat.fin 8, vary := true }),
       ("p2_center", { value := 2, min := XRat.fin 1, max := XRat.fin 9, vary := true })]
      [XRat.fin 7, XRat.fin 9] "center") "center").getD 1 pdefault.2).min = XRat.negInf ∧
    ((matchedParams (_assign
      [("p1_center", { value := 5, min := XRat.fin 1, max := XRat.fin 9, vary := true }),
       ("x_amp", { value := 7, min := XRat.fin 0, max := XRat.fin 8, vary := true }),
       ("p2_center", { value := 2, min := XRat.fin 1, max := XRat.fin 9, vary := true })]
      [XRat.fin 7, XRat.fin 9] "center") "center").getD 1 pdefault.2).max = XRat.posInf) :=
  ⟨by with_unfolding_all decide, by with_unfolding_all decide,
    assign_writes_and_clears_bounds
      [("p1_center", { value := 5, min := XRat.fin 1, max := XRat.fin 9, vary := true }),
       ("x_amp", { value := 7, min := XRat.fin 0, max := XRat.fin 8, vary := true }),
       ("p2_center", { value := 2, min := XRat.fin 1, max := XRat.fin 9, vary := true })]
      [XRat.fin 7, XRat.fin 9] "center" 1
      (by with_unfolding_all decide) (by with_unfolding_all decide)⟩

/-- C10: `sort` and `smoothen` write back exclusively through `assign`,
so every parameter whose name matches a written suffix ends with bounds
`(-inf, +inf)` (bounds previously established, e.g. by `set_bounds`, are
destroyed), while every parameter matching no written suffix is left
entirely unchanged; parameter names and positions are preserved. -/
theorem sort_smoothen_clear_bounds_frame (t : String) (names : List String)
    (vals : List XRat) (pname : String) (d : ModelResult) (i : Nat)
    (hi : i < d.length) :
    (((sortCell t names d).getD i pdefault).1 = (d.getD i pdefault).1) ∧
    ((∃ s ∈ names, endsW (d.getD i pdefault).1 s = true) →
      ((sortCell t names d).getD i pdefault).2.min = XRat.negInf ∧
      ((sortCell t names d).getD i pdefault).2.max = XRat.posInf) ∧
    ((∀ s ∈ names, endsW (d.getD i pdefault).1 s = false) →
      (sortCell t names d).getD i pdefault = d.getD i pdefault) ∧
    ((endsW (d.getD i pdefault).1 pname = true) →
      ((smoothenWriteBack d vals pname).getD i pdefault).2.min = XRat.negInf ∧
      ((smoothenWriteBack d vals pname).getD i pdefault).2.max = XRat.posInf) ∧
    ((endsW (d.getD i pdefault).1 pname = false) →
      (smoothenWriteBack d vals pname).getD i pdefault = d.getD i pdefault) := by
  have hsort := foldl_sortStep_entry (argsortQ (matchedValues d t)) names d i hi
  have hsm := assignAux_entry vals pname d 0 i hi
  exact ⟨hsort.1, hsort.2.1, hsort.2.2, hsm.2.1, hsm.2.2⟩

/-- C10 witness: the theorem applied to a cell holding a bounded `center`
parameter and a bounded `width` parameter: `sort("center", ["center"])`
clears the center parameter's bounds to infinity, while a smoothen
write-back on `center` leaves the width parameter entirely unchanged. -/
theorem sort_smoothen_clear_bounds_frame_witness :
    0 < ([("p1_center", { value := 5, min := XRat.fin 1, max := XRat.fin 9, vary := true }),
          ("p1_width", { value := 3, min := XRat.fin 2, max := XRat.fin 4, vary := true })] :
          ModelResult).length ∧
    ((sortCell "center" ["center"]
        [("p1_center", { value := 5, min := XRat.fin 1, max := XRat.fin 9, vary := true }),
         ("p1_width", { value := 3, min := XRat.fin 2, max := XRat.fin 4, vary := true })]).getD
      0 pdefault).2.min = XRat.negInf ∧
    ((sortCell "center" ["center"]
        [("p1_center", { value := 5, min := XRat.fin 1, max := XRat.fin 9, vary := true }),
         ("p1_width", { value := 3, min := XRat.fin 2, max := XRat.fin 4, vary := true })]).getD
      0 pdefault).2.max = XRat.posInf ∧
    (smoothenWriteBack
        [("p1_center", { value := 5, min := XRat.fin 1, max := XRat.fin 9, vary := true }),
         ("p1_width", { value := 3, min := XRat.fin 2, max := XRat.fin 4, vary := true })]
        [XRat.fin 6] "center").getD 1 pdefault =
      (([("p1_center", { value := 5, min := XRat.fin 1, max := XRat.fin 9, vary := true }),
         ("p1_width", { value := 3, min := XRat.fin 2, max := XRat.fin 4, vary := true })] :
         ModelResult).getD 1 pdefault) :=
  ⟨by with_unfolding_all decide,
    ((sort_smoothen_clear_bounds_frame "center" ["center"] [XRat.fin 6] "center"
      [("p1_center", { value := 5, min := XRat.fin 1, max := XRat.fin 9, vary := true }),
       ("p1_width", { value := 3, min := XRat.fin 2, max := XRat.fin 4, vary := true })]
      0 (by with_unfolding_all decide)).2.1
      ⟨"center", by with_unfolding_all decide, by with_unfolding_all decide⟩).1,
    ((sort_smoothen_clear_bounds_frame "center" ["center"] [XRat.fin 6] "center"
      [("p1_center", { value := 5, min := XRat.fin 1, max := XRat.fin 9, vary := true }),
       ("p1_width", { value := 3, min := XRat.fin 2, max := XRat.fin 4, vary := true })]
      0 (by with_unfolding_all decide)).2.1
      ⟨"center", by with_unfolding_all decide, by with_unfolding_all decide⟩).2,
    (sort_smoothen_clear_bounds_frame "center" ["center"] [XRat.fin 6] "center"
      [("p1_center", { value := 5, min := XRat.fin 1, max := XRat.fin 9, vary := true }),
       ("p1_width", { value := 3, min := XRat.fin 2, max := XRat.fin 4, vary := true })]
      1 (by with_unfolding_all decide)).2.2.2.2
      (by with_unfolding_all decide)⟩

end Xrfit
